import Mathlib

/-!
Verification of the pocketoptionbot protocol/session core against its
natural-language specification.  The definitions below are a shallow
embedding of `src/pocketoptionapi/stable_api.py` and
`src/pocketoptionapi/ws/client.py`: prices are rationals, timestamps are
natural-number seconds, pandas dataframe pipelines become list
transformations, and the polling loops become fuel-indexed recursions
whose fuel is the number of 0.1-second poll ticks until the deadline.
-/

namespace POB

/-- One OHLC candle as produced by `PocketOption.process_data_history`
(`stable_api.py` lines 239-254).  `open_` stands for the `open` column
(`open` is a Lean keyword). -/
structure Candle where
  time : Nat
  open_ : ℚ
  high : ℚ
  low : ℚ
  close : ℚ
  deriving DecidableEq, Repr

/-- `minute_rounded` / `last_time`: flooring a timestamp to the period grid,
`(timestamp // period) * period` (pandas `dt.floor` on `period/60` minutes). -/
def bucket (period t : Nat) : Nat := t / period * period

/-- The prices of the input rows falling into bucket `b`, in original row
order — exactly the rows pandas `groupby('minute_rounded')` aggregates with
`first`/`max`/`min`/`last` for that group. -/
def bucketPrices (data : List (Nat × ℚ)) (period b : Nat) : List ℚ :=
  (data.filter (fun p => bucket period p.1 = b)).map Prod.snd

/-- Binary maximum on ℚ, written out so that concrete aggregations reduce in
the kernel (it agrees with `max`). -/
def qmax (a b : ℚ) : ℚ := if a ≤ b then b else a

/-- Binary minimum on ℚ, written out so that concrete aggregations reduce in
the kernel (it agrees with `min`). -/
def qmin (a b : ℚ) : ℚ := if a ≤ b then a else b

/-- The `agg(open='first', high='max', low='min', close='last')` row for one
group.  The defaults of `headD`/`getLastD` are unreachable: every bucket key
comes from at least one input row, so `ps` is nonempty at every use. -/
def ohlc (b : Nat) (ps : List ℚ) : Candle :=
  { time := b
    open_ := ps.headD 0
    high := ps.foldl qmax (ps.headD 0)
    low := ps.foldl qmin (ps.headD 0)
    close := ps.getLastD 0 }

/-- The distinct bucket keys in ascending order — pandas `groupby` sorts its
group keys. -/
def bucketKeys (data : List (Nat × ℚ)) (period : Nat) : List Nat :=
  ((data.map (fun p => bucket period p.1)).dedup).insertionSort (· ≤ ·)

/-- `PocketOption.process_data_history(data, period)` (`stable_api.py`
239-254): bucket every `(timestamp, price)` row to the period grid, aggregate
each group to an OHLC candle (first/max/min/last in row order, groups emitted
in ascending key order), then drop the final row (`ohlcv.iloc[:-1]`). -/
def process_data_history (data : List (Nat × ℚ)) (period : Nat) : List Candle :=
  ((bucketKeys data period).map (fun b => ohlc b (bucketPrices data period b))).dropLast

/-! ### Helper lemmas about folds of `qmax`/`qmin` -/

theorem le_qmax_left (a b : ℚ) : a ≤ qmax a b := by
  unfold qmax; split
  · assumption
  · exact le_refl a

theorem le_qmax_right (a b : ℚ) : b ≤ qmax a b := by
  unfold qmax; split
  · exact le_refl b
  · exact le_of_not_le (by assumption)

theorem qmin_le_left (a b : ℚ) : qmin a b ≤ a := by
  unfold qmin; split
  · exact le_refl a
  · exact le_of_not_le (by assumption)

theorem qmin_le_right (a b : ℚ) : qmin a b ≤ b := by
  unfold qmin; split
  · assumption
  · exact le_refl b

theorem qmax_eq_left {a b : ℚ} (h : b ≤ a) : qmax a b = a := by
  unfold qmax; split
  · exact le_antisymm h (by assumption)
  · rfl

theorem qmin_eq_left {a b : ℚ} (h : a ≤ b) : qmin a b = a := by
  unfold qmin; split
  · rfl
  · exact absurd h (by assumption)

theorem init_le_foldl_max (l : List ℚ) (a : ℚ) : a ≤ l.foldl qmax a := by
  induction l generalizing a with
  | nil => simp
  | cons y ys ih => exact le_trans (le_qmax_left a y) (ih (qmax a y))

theorem le_foldl_max (l : List ℚ) (a x : ℚ) (hx : x ∈ l) : x ≤ l.foldl qmax a := by
  induction l generalizing a with
  | nil => simp at hx
  | cons y ys ih =>
    rcases List.mem_cons.mp hx with rfl | h
    · exact le_trans (le_qmax_right a x) (init_le_foldl_max ys (qmax a x))
    · exact ih (qmax a y) h

theorem foldl_min_le_init (l : List ℚ) (a : ℚ) : l.foldl qmin a ≤ a := by
  induction l generalizing a with
  | nil => simp
  | cons y ys ih => exact le_trans (ih (qmin a y)) (qmin_le_left a y)

theorem foldl_min_le (l : List ℚ) (a x : ℚ) (hx : x ∈ l) : l.foldl qmin a ≤ x := by
  induction l generalizing a with
  | nil => simp at hx
  | cons y ys ih =>
    rcases List.mem_cons.mp hx with rfl | h
    · exact le_trans (foldl_min_le_init ys (qmin a x)) (qmin_le_right a x)
    · exact ih (qmin a y) h

theorem foldl_max_absorb (l : List ℚ) (a : ℚ) (h : ∀ x ∈ l, x ≤ a) :
    l.foldl qmax a = a := by
  induction l generalizing a with
  | nil => rfl
  | cons y ys ih =>
    have hy : y ≤ a := h y (List.mem_cons_self y ys)
    simp only [List.foldl_cons, qmax_eq_left hy]
    exact ih a fun x hx => h x (List.mem_cons_of_mem _ hx)

theorem foldl_min_absorb (l : List ℚ) (a : ℚ) (h : ∀ x ∈ l, a ≤ x) :
    l.foldl qmin a = a := by
  induction l generalizing a with
  | nil => rfl
  | cons y ys ih =>
    have hy : a ≤ y := h y (List.mem_cons_self y ys)
    simp only [List.foldl_cons, qmin_eq_left hy]
    exact ih a fun x hx => h x (List.mem_cons_of_mem _ hx)

/-! ### Structural facts about `process_data_history` -/

theorem bucket_idem (period t : Nat) : bucket period (bucket period t) = bucket period t := by
  unfold bucket
  rcases Nat.eq_zero_or_pos period with rfl | hp
  · simp
  · rw [Nat.mul_div_cancel _ hp]

theorem bucketKeys_sorted (data : List (Nat × ℚ)) (period : Nat) :
    (bucketKeys data period).Sorted (· ≤ ·) :=
  List.sorted_insertionSort _ _

theorem bucketKeys_nodup (data : List (Nat × ℚ)) (period : Nat) :
    (bucketKeys data period).Nodup := by
  unfold bucketKeys
  exact ((data.map (fun p => bucket period p.1)).dedup.perm_insertionSort (· ≤ ·)).symm.nodup
    (List.nodup_dedup _)

theorem mem_bucketKeys {data : List (Nat × ℚ)} {period b : Nat} (hb : b ∈ bucketKeys data period) :
    ∃ p ∈ data, bucket period p.1 = b := by
  unfold bucketKeys at hb
  rw [List.Perm.mem_iff (List.perm_insertionSort _ _), List.mem_dedup, List.mem_map] at hb
  exact hb

theorem bucketPrices_ne_nil {data : List (Nat × ℚ)} {period b : Nat}
    (hb : b ∈ bucketKeys data period) : bucketPrices data period b ≠ [] := by
  obtain ⟨p, hp, hpb⟩ := mem_bucketKeys hb
  have : p.2 ∈ bucketPrices data period b := by
    unfold bucketPrices
    exact List.mem_map_of_mem _ (List.mem_filter.mpr ⟨hp, by simp [hpb]⟩)
  intro hnil
  rw [hnil] at this
  exact (List.not_mem_nil _) this

theorem ohlc_bounds (b : Nat) (ps : List ℚ) (hps : ps ≠ []) :
    (ohlc b ps).low ≤ (ohlc b ps).open_ ∧ (ohlc b ps).open_ ≤ (ohlc b ps).high ∧
    (ohlc b ps).low ≤ (ohlc b ps).close ∧ (ohlc b ps).close ≤ (ohlc b ps).high := by
  obtain ⟨x, l, rfl⟩ := List.exists_cons_of_ne_nil hps
  have hclose : (x :: l).getLastD 0 ∈ x :: l := by
    rw [List.getLastD_cons]; exact List.getLastD_mem_cons l x
  refine ⟨?_, ?_, ?_, ?_⟩
  · exact foldl_min_le (x :: l) _ _ (List.mem_cons_self x l)
  · exact le_foldl_max (x :: l) _ _ (List.mem_cons_self x l)
  · exact foldl_min_le (x :: l) _ _ hclose
  · exact le_foldl_max (x :: l) _ _ hclose

/-- Every candle emitted by `process_data_history` is `ohlc b ps` for some
bucket key `b` with its (nonempty) group prices `ps`. -/
theorem mem_process_data_history {data : List (Nat × ℚ)} {period : Nat} {c : Candle}
    (hc : c ∈ process_data_history data period) :
    ∃ b ∈ bucketKeys data period, c = ohlc b (bucketPrices data period b) := by
  unfold process_data_history at hc
  have hc' := (List.dropLast_sublist _).subset hc
  obtain ⟨b, hb, rfl⟩ := List.mem_map.mp hc'
  exact ⟨b, hb, rfl⟩

/-- C2.  For every input point set, the aggregated `CandleSeries` has strictly
increasing (hence pairwise distinct) timestamps, each aligned to the period
grid, and every candle satisfies `low ≤ open ≤ high` and `low ≤ close ≤ high`. -/
theorem process_data_history_invariants (data : List (Nat × ℚ)) (period : Nat) :
    ((process_data_history data period).map Candle.time).Pairwise (· < ·) ∧
    ∀ c ∈ process_data_history data period,
      c.time / period * period = c.time ∧
      (c.low ≤ c.open_ ∧ c.open_ ≤ c.high ∧ c.low ≤ c.close ∧ c.close ≤ c.high) := by
  constructor
  · have htimes : (process_data_history data period).map Candle.time =
        (bucketKeys data period).dropLast := by
      unfold process_data_history
      rw [← List.map_dropLast, List.map_map]
      have hid : (Candle.time ∘ fun b => ohlc b (bucketPrices data period b)) = id := by
        funext b; rfl
      rw [hid, List.map_id]
    have hsortedlt : (bucketKeys data period).Pairwise (· < ·) :=
      (bucketKeys_sorted data period).lt_of_le (bucketKeys_nodup data period)
    rw [htimes]
    exact hsortedlt.sublist (List.dropLast_sublist _)
  · intro c hc
    obtain ⟨b, hb, rfl⟩ := mem_process_data_history hc
    obtain ⟨p, _, rfl⟩ := mem_bucketKeys hb
    constructor
    · exact bucket_idem period p.1
    · exact ohlc_bounds _ _ (bucketPrices_ne_nil hb)

/-- C1 counterexample: on scenario A's point set the claimed candle
`{time 100, open 1.0, high 1.2, low 0.9, close 0.9}` is not what
`process_data_history` produces. -/
theorem scenarioA_claimed_candle_false :
    process_data_history
        [(100, 1), (101, 1), (105, mkRat 6 5), (110, mkRat 9 10), (100, 1)] 10 ≠
      [{ time := 100, open_ := 1, high := mkRat 6 5, low := mkRat 9 10,
         close := mkRat 9 10 }] := by
  decide

/-- C1 amended: scenario A yields exactly one candle, at bucket 100, with
open 1.0, high 1.2, low 1.0, close 1.0 — the duplicate timestamp-100 point is
kept (it becomes the close), and bucket 110 is discarded by the trailing
`iloc[:-1]` row drop. -/
theorem scenarioA_actual :
    process_data_history
        [(100, 1), (101, 1), (105, mkRat 6 5), (110, mkRat 9 10), (100, 1)] 10 =
      [{ time := 100, open_ := 1, high := mkRat 6 5, low := 1, close := 1 }] := by
  decide

/-! ### C3: aggregation under duplicated input -/

theorem bucketKeys_append_self (S : List (Nat × ℚ)) (period : Nat) :
    bucketKeys (S ++ S) period = bucketKeys S period := by
  unfold bucketKeys
  apply List.eq_of_perm_of_sorted ?_ (List.sorted_insertionSort _ _)
    (List.sorted_insertionSort _ _)
  refine List.Perm.trans (List.perm_insertionSort _ _)
    (List.Perm.trans ?_ (List.perm_insertionSort _ _).symm)
  apply (List.perm_ext_iff_of_nodup (List.nodup_dedup _) (List.nodup_dedup _)).2
  intro a
  simp only [List.mem_dedup, List.map_append, List.mem_append]
  tauto

theorem bucketPrices_append_self (S : List (Nat × ℚ)) (period b : Nat) :
    bucketPrices (S ++ S) period b = bucketPrices S period b ++ bucketPrices S period b := by
  unfold bucketPrices
  rw [List.filter_append, List.map_append]

theorem ohlc_append_self (b : Nat) (ps : List ℚ) : ohlc b (ps ++ ps) = ohlc b ps := by
  cases ps with
  | nil => rfl
  | cons x l =>
    have hhead : ((x :: l) ++ (x :: l)).headD 0 = x := rfl
    have hlast : ((x :: l) ++ (x :: l)).getLastD 0 = (x :: l).getLastD 0 := by
      rw [List.getLastD_eq_getLast?, List.getLastD_eq_getLast?, List.getLast?_append]
      cases hl : (x :: l).getLast? with
      | none => simp at hl
      | some y => simp
    unfold ohlc
    rw [hhead, hlast]
    have habsorb : ∀ a : ℚ, ((x :: l) ++ (x :: l)).foldl qmax x = (x :: l).foldl qmax x ∧
        ((x :: l) ++ (x :: l)).foldl qmin x = (x :: l).foldl qmin x := by
      intro a
      constructor
      · rw [List.foldl_append]
        exact foldl_max_absorb _ _ fun y hy => le_foldl_max _ _ _ hy
      · rw [List.foldl_append]
        exact foldl_min_absorb _ _ fun y hy => foldl_min_le _ _ _ hy
    rw [(habsorb 0).1, (habsorb 0).2]
    rfl

/-- C3 amended: aggregating the concatenation of a point set with itself
yields the same `CandleSeries` as aggregating it once. -/
theorem process_data_history_self_append (S : List (Nat × ℚ)) (period : Nat) :
    process_data_history (S ++ S) period = process_data_history S period := by
  unfold process_data_history
  rw [bucketKeys_append_self]
  congr 1
  apply List.map_congr_left
  intro b _
  rw [bucketPrices_append_self, ohlc_append_self]

/-- C3 counterexample: for `S = [(100,1),(105,2),(110,3)]` the chunk list
`[(105,2)] ++ [(100,1),(110,3)]` has the same set of points as `S` (it is a
permutation of `S`), yet aggregating it yields a different series — pandas
`groupby.agg(first/last)` depends on row order, which the code never
normalises before grouping. -/
theorem chunk_union_aggregation_differs :
    process_data_history [(105, 2), (100, 1), (110, 3)] 10 ≠
      process_data_history [(100, 1), (105, 2), (110, 3)] 10 ∧
    List.Perm [(105, (2 : ℚ)), (100, 1), (110, 3)] [(100, 1), (105, 2), (110, 3)] := by
  decide

/-! ### `PocketOption.process_candle` (`stable_api.py` lines 256-265) -/

/-- `data_df.sort_values(by='time', ascending=True)`. -/
def sortByTime (d : List (Nat × ℚ)) : List (Nat × ℚ) :=
  d.insertionSort (fun a b => a.1 ≤ b.1)

/-- Helper for `dropDupTimes`: walk the rows keeping the first row of every
timestamp not seen before. -/
def dropDupTimesAux (seen : List Nat) : List (Nat × ℚ) → List (Nat × ℚ)
  | [] => []
  | r :: rs =>
    if r.1 ∈ seen then dropDupTimesAux seen rs
    else r :: dropDupTimesAux (r.1 :: seen) rs

/-- `drop_duplicates(subset='time', keep="first")`: keep the first-seen row of
each timestamp. -/
def dropDupTimes (d : List (Nat × ℚ)) : List (Nat × ℚ) :=
  dropDupTimesAux [] d

/-- `(data_df['time'].diff()[1:] == period).all()`: after dropping the leading
`NaN` of `diff()`, every consecutive difference of the `time` column equals
`period`; the `all()` of an empty comparison is `True`. -/
def diffsAll (period : Nat) : List Nat → Bool
  | [] => true
  | [_] => true
  | a :: b :: rest => ((b : ℤ) - (a : ℤ) == (period : ℤ)) && diffsAll period (b :: rest)

/-- `PocketOption.process_candle(candle_data, period)`: sort rows by `time`,
drop duplicate timestamps keeping the first, forward-fill (a no-op here: the
modelled rows carry total values, no `NaN`), and return the frame together
with the gap-free flag.  `none` models the exception that
`sort_values(by='time')` raises on an empty input (`pd.DataFrame([])` has no
`time` column). -/
def process_candle (candle_data : List (Nat × ℚ)) (period : Nat) :
    Option (List (Nat × ℚ) × Bool) :=
  if candle_data.isEmpty then none
  else
    let df := dropDupTimes (sortByTime candle_data)
    some (df, diffsAll period (df.map Prod.fst))

theorem diffsAll_iff_chain (period : Nat) : ∀ ts : List Nat,
    diffsAll period ts = true ↔
      List.Chain' (fun a b : Nat => (b : ℤ) - (a : ℤ) = (period : ℤ)) ts
  | [] => by simp [diffsAll]
  | [a] => by simp [diffsAll]
  | a :: b :: rest => by
    simp only [diffsAll, Bool.and_eq_true, beq_iff_eq, List.chain'_cons,
      diffsAll_iff_chain period (b :: rest)]

/-- C10 counterexample: on the single-row input `[(100, 1.0)]` the gap-free
flag is `true` (the `all()` over zero comparisons), where the claim demands
`false` for a single-point series. -/
theorem process_candle_single_row_flag_true :
    process_candle [(100, 1)] 10 = some ([(100, 1)], true) := by
  decide

/-- C10 amended: for every nonempty input, `process_candle` returns the
sorted, timestamp-deduplicated frame together with a flag that is `true` iff
every consecutive pair of timestamps differs by exactly `period` — vacuously
`true` when fewer than two rows remain.  (An empty input raises instead of
returning.) -/
theorem process_candle_flag_iff (d : List (Nat × ℚ)) (period : Nat) (h : d ≠ []) :
    ∃ out : List (Nat × ℚ) × Bool,
      process_candle d period = some out ∧
      out.1 = dropDupTimes (sortByTime d) ∧
      (out.2 = true ↔
        List.Chain' (fun a b : Nat => (b : ℤ) - (a : ℤ) = (period : ℤ))
          (out.1.map Prod.fst)) := by
  cases d with
  | nil => exact absurd rfl h
  | cons x xs => exact ⟨_, rfl, rfl, diffsAll_iff_chain period _⟩

/-- Witness for C10's amended theorem at a concrete two-row input. -/
theorem process_candle_flag_iff_witness :
    ∃ out : List (Nat × ℚ) × Bool,
      process_candle [(100, 1), (110, 2)] 10 = some out ∧
      out.1 = dropDupTimes (sortByTime [(100, 1), (110, 2)]) ∧
      (out.2 = true ↔
        List.Chain' (fun a b : Nat => (b : ℤ) - (a : ℤ) = ((10 : Nat) : ℤ))
          (out.1.map Prod.fst)) :=
  process_candle_flag_iff [(100, 1), (110, 2)] 10 (by decide)

/-! ### WebsocketClient frame handling (`ws/client.py`) -/

/-- A parsed JSON payload, restricted to the shapes `on_message` inspects:
dicts carrying the keys the handler reads, and list payloads (stream ticks
of the form `[[asset, serverTimestamp, price], ...]`). -/
inductive JData where
  | dict (balance : Option ℚ) (uid : Option Nat) (isDemo : Option Bool)
      (requestId : Option String) (data_field : Option (List (Nat × ℚ)))
  | list (tick : Option (String × Nat × ℚ))
  deriving DecidableEq

/-- A raw websocket frame after the prefix classification in `on_message`:
engine open (`0{"sid"...}`), heartbeat (`2`), namespace ack (`40...sid`),
a tagged event frame (`451-["name",...]`), the fatal `NotAuthorized` frame,
or a bare JSON frame. -/
inductive Msg where
  | engineOpen
  | heartbeat
  | nsAck
  | event (name : String)
  | notAuthorized
  | json (d : JData)
  deriving DecidableEq

/-- The mutable state `on_message` touches: the `global_value` flags plus the
`WebsocketClient`/api fields.  `updateClosedDeals` models the
underscore-prefixed flag of the source. -/
structure ClientState where
  websocket_is_connected : Bool
  balance : Option ℚ
  balance_id : Option Nat
  balance_type : Option Bool
  balance_updated : Bool
  result : Option Bool
  order_data : Option JData
  order_async : Option JData
  history_data : Option (List (Nat × ℚ))
  historyNew : Option JData
  server_timestamp : Option Nat
  wait_second_message : Bool
  updateClosedDeals : Bool
  successCloseOrder : Bool
  history_data_ready : Bool
  updateStream : Bool
  updateHistoryNew : Bool
  ssl_Mutual_exclusion : Bool
  deriving DecidableEq

/-- Modelled from the spec: the freshly started session.  The initial values
of the `global_value` module are not part of the sources (only
`stable_api.py` and `ws/client.py` are); per the spec the balance freshness
flag is unset at session start and every awaiting-data flag is clear. -/
def initState : ClientState :=
  { websocket_is_connected := false
    balance := none
    balance_id := none
    balance_type := none
    balance_updated := false
    result := none
    order_data := none
    order_async := none
    history_data := none
    historyNew := none
    server_timestamp := none
    wait_second_message := false
    updateClosedDeals := false
    successCloseOrder := false
    history_data_ready := false
    updateStream := false
    updateHistoryNew := false
    ssl_Mutual_exclusion := true }

/-- The `451-` event dispatch of `on_message` (`ws/client.py` 186-225), in
source order. -/
def handleEvent (s : ClientState) (name : String) : ClientState :=
  if name = "successauth" then { s with websocket_is_connected := true }
  else if name = "successupdateBalance" then { s with balance_updated := true }
  else if name = "successopenOrder" then { s with result := some true }
  else if name = "updateClosedDeals" then
    { s with updateClosedDeals := true, wait_second_message := true }
  else if name = "successcloseOrder" then
    { s with successCloseOrder := true, wait_second_message := true }
  else if name = "loadHistoryPeriod" then { s with history_data_ready := true }
  else if name = "updateStream" then { s with updateStream := true }
  else if name = "updateHistoryNew" then { s with updateHistoryNew := true }
  else s

/-- The JSON dispatch of `on_message` (`ws/client.py` 234-272).  The whole
`elif` chain sits under `if isinstance(data, dict)`, so a JSON list payload
changes nothing; inside the dict branch, `data["isDemo"]` is read after
`balance` was already assigned, so a balance dict without `isDemo` updates
the balance but raises before setting the freshness flag. -/
def handleJson (s : ClientState) (d : JData) : ClientState :=
  match d with
  | JData.list _ => s
  | JData.dict bal uid isDemo reqId dataF =>
    match bal with
    | some b =>
      let s1 :=
        match uid with
        | some u => { s with balance_id := some u, balance := some b }
        | none => { s with balance := some b }
      match isDemo with
      | some t => { s1 with balance_type := some t, balance_updated := true }
      | none => s1
    | none =>
      if reqId = some "buy" then { s with order_data := some d }
      else if s.successCloseOrder then { s with order_async := some d, successCloseOrder := false }
      else if s.history_data_ready then
        { s with history_data_ready := false, history_data := dataF }
      else if s.updateHistoryNew then { s with updateHistoryNew := false, historyNew := some d }
      else s

/-- One `on_message` call.  For an event frame the later `json.loads` raises
(`message` was rebound to a list), for the engine/heartbeat/ack frames it is
not a JSON dict: in all those cases only the prefix branch acts. -/
def processMsg (s : ClientState) (m : Msg) : ClientState :=
  match m with
  | Msg.engineOpen => s
  | Msg.heartbeat => s
  | Msg.nsAck => s
  | Msg.event n => handleEvent s n
  | Msg.notAuthorized => { s with ssl_Mutual_exclusion := false }
  | Msg.json d => handleJson s d

/-- The listener task: frames processed strictly in arrival order. -/
def runMsgs (s : ClientState) (ms : List Msg) : ClientState :=
  ms.foldl processMsg s

/-- `PocketOption.get_balance` (`stable_api.py` 126-131): the cached balance
if the freshness flag is set, otherwise `None`. -/
def get_balance (s : ClientState) : Option ℚ :=
  if s.balance_updated then s.balance else none

/-- A frame that marks the balance fresh: the `successupdateBalance` event,
or a JSON dict with a `balance` key (and the `isDemo` key whose absence would
raise before the flag assignment). -/
def isBalanceUpdate : Msg → Bool
  | Msg.event n => n == "successupdateBalance"
  | Msg.json (JData.dict (some _) _ (some _) _ _) => true
  | _ => false

theorem processMsg_balance_updated (s : ClientState) (m : Msg) :
    (processMsg s m).balance_updated = (s.balance_updated || isBalanceUpdate m) := by
  cases m with
  | engineOpen => simp [processMsg, isBalanceUpdate]
  | heartbeat => simp [processMsg, isBalanceUpdate]
  | nsAck => simp [processMsg, isBalanceUpdate]
  | notAuthorized => simp [processMsg, isBalanceUpdate]
  | event n =>
    simp only [processMsg, handleEvent, isBalanceUpdate]
    split_ifs with h1 h2 h3 h4 h5 h6 h7 h8 <;> simp_all
  | json d =>
    cases d with
    | list tick => simp [processMsg, handleJson, isBalanceUpdate]
    | dict bal uid isDemo reqId dataF =>
      cases bal with
      | some b =>
        cases isDemo with
        | some t => cases uid <;> simp [processMsg, handleJson, isBalanceUpdate]
        | none => cases uid <;> simp [processMsg, handleJson, isBalanceUpdate]
      | none =>
        simp only [processMsg, handleJson, isBalanceUpdate]
        split_ifs <;> simp

theorem runMsgs_balance_updated : ∀ (ms : List Msg) (s : ClientState),
    (runMsgs s ms).balance_updated = (s.balance_updated || ms.any isBalanceUpdate)
  | [], s => by simp [runMsgs]
  | m :: ms, s => by
    have hrec : runMsgs s (m :: ms) = runMsgs (processMsg s m) ms := rfl
    rw [hrec, runMsgs_balance_updated ms (processMsg s m), processMsg_balance_updated,
      List.any_cons]
    cases s.balance_updated <;> cases isBalanceUpdate m <;> simp

/-- C7.  After processing any frame sequence from session start,
`get_balance` returns the cached balance exactly when at least one
balance-update frame has been observed, and `None` otherwise. -/
theorem get_balance_iff_fresh (ms : List Msg) :
    get_balance (runMsgs initState ms) =
      (if ms.any isBalanceUpdate then (runMsgs initState ms).balance else none) := by
  unfold get_balance
  rw [runMsgs_balance_updated ms initState]
  cases h : ms.any isBalanceUpdate <;> simp [initState, h]

/-- C9 (code bug).  After a `451-["updateStream",...]` frame sets the
awaiting-stream flag, a following JSON stream tick does NOT consume the flag
and does NOT refresh the server timestamp: the dispatch branch
`elif self.updateStream and isinstance(data, list)` is nested under
`if isinstance(data, dict)` and can never fire. -/
theorem updateStream_tick_not_consumed :
    (runMsgs initState
        [Msg.event "updateStream",
         Msg.json (JData.list (some ("AUDNZD_otc", 1700000000, mkRat 13 20)))]).updateStream
        = true ∧
    (runMsgs initState
        [Msg.event "updateStream",
         Msg.json (JData.list (some ("AUDNZD_otc", 1700000000, mkRat 13 20)))]).server_timestamp
        = none := by
  decide

/-! ### `WebsocketClient.connect` (`ws/client.py` lines 82-133) -/

/-- One full pass of the `for url in self.region.get_regions(True)` loop:
`outcome p url` is the value of `global_value.websocket_is_connected` after
the attempt on `url` of pass `p` completes (the exception handlers set it to
`False`, a successful connection to `True`).  The `for` loop visits every
url of the pass regardless of the flag. -/
def passAttempt (outcome : Nat → String → Bool) (p : Nat) (urls : List String)
    (conn : Bool) : Bool :=
  urls.foldl (fun _ url => outcome p url) conn

/-- The `while not global_value.websocket_is_connected and attempt < max_attempts`
retry loop; `fuel = max_attempts - attempt`. -/
def connectLoop (outcome : Nat → String → Bool) (urls : List String) :
    Nat → Bool → Nat → Bool
  | _, conn, 0 => conn
  | attempt, conn, fuel + 1 =>
    if conn then conn
    else connectLoop outcome urls (attempt + 1)
        (passAttempt outcome (attempt + 1) urls conn) fuel

/-- `WebsocketClient.connect()` with `max_attempts = 5`: the first component
is the returned boolean (`False` when still unconnected after all passes),
the second the final `websocket_is_connected` flag. -/
def connectWS (outcome : Nat → String → Bool) (urls : List String) : Bool × Bool :=
  let conn := connectLoop outcome urls 0 false 5
  (conn, conn)

/-- C4.  If every connection attempt at every regional endpoint fails, over
all 5 passes, `connect()` returns `False` (without raising: every failure
path is a caught exception, modelled by `outcome` itself) and the session
connectivity flag stays `False`. -/
theorem connect_all_fail (outcome : Nat → String → Bool) (urls : List String)
    (h : ∀ p url, outcome p url = false) :
    connectWS outcome urls = (false, false) := by
  have hpass : ∀ p (l : List String), passAttempt outcome p l false = false := by
    intro p l
    induction l with
    | nil => rfl
    | cons u us ih =>
      unfold passAttempt at ih ⊢
      simp only [List.foldl_cons]
      rw [h p u]
      exact ih
  have hloop : ∀ fuel attempt, connectLoop outcome urls attempt false fuel = false := by
    intro fuel
    induction fuel with
    | zero => intro attempt; rfl
    | succ n ih =>
      intro attempt
      simp only [connectLoop, Bool.false_eq_true, if_false]
      rw [hpass (attempt + 1) urls]
      exact ih (attempt + 1)
  unfold connectWS
  rw [hloop 5 0]

/-- Witness for C4 with two endpoints that always fail. -/
theorem connect_all_fail_witness :
    connectWS (fun _ _ => false) ["wss://api-eu.po.market/", "wss://api-us.po.market/"] =
      (false, false) :=
  connect_all_fail _ _ (fun _ _ => rfl)

/-! ### `PocketOption.buy` (`stable_api.py` lines 146-172) -/

/-- The `order_data` dict of a buy response; only its `"id"` key is read
(`global_value.order_data.get("id", None)`). -/
structure OrderData where
  id : Option Nat
  deriving DecidableEq

/-- The `while True` poll of `PocketOption.buy`: `env k` is the pair
`(global_value.result, global_value.order_data)` seen at the k-th
0.1-second poll; `rem` is the number of polls left before
`time.time() - start_t >= 5`.  The success test runs before the deadline
test, as in the source. -/
def buyLoop (env : Nat → Option Bool × Option OrderData) :
    Nat → Nat → Bool × Option Nat
  | 0, k =>
    match env k with
    | (some r, some d) => (r, d.id)
    | _ => (false, none)
  | rem + 1, k =>
    match env k with
    | (some r, some d) => (r, d.id)
    | _ => buyLoop env rem (k + 1)

/-- `PocketOption.buy`: 50 polls of 0.1 s cover the 5-second deadline. -/
def buy (env : Nat → Option Bool × Option OrderData) : Bool × Option Nat :=
  buyLoop env 50 0

/-- C5.  If no poll ever observes the order confirmation (result flag and
order data both set), `buy` terminates at its deadline and returns
`(False, None)`. -/
theorem buy_timeout (env : Nat → Option Bool × Option OrderData)
    (h : ∀ k, (env k).1 = none ∨ (env k).2 = none) :
    buy env = (false, none) := by
  suffices hs : ∀ rem k, buyLoop env rem k = (false, none) from hs 50 0
  intro rem
  induction rem with
  | zero =>
    intro k
    simp only [buyLoop]
    rcases henv : env k with ⟨r, d⟩
    rcases h k with h1 | h1 <;> rw [henv] at h1 <;> simp only at h1 <;> subst h1
    · rfl
    · cases r <;> rfl
  | succ n ih =>
    intro k
    simp only [buyLoop]
    rcases henv : env k with ⟨r, d⟩
    rcases h k with h1 | h1 <;> rw [henv] at h1 <;> simp only at h1 <;> subst h1
    · exact ih (k + 1)
    · cases r
      · exact ih (k + 1)
      · exact ih (k + 1)

/-- Witness for C5: an environment in which the confirmation never arrives. -/
theorem buy_timeout_witness : buy (fun _ => (none, none)) = (false, none) :=
  buy_timeout _ (fun _ => Or.inl rfl)

/-! ### `PocketOption.check_win` (`stable_api.py` lines 174-193) -/

/-- One tracked deal of `api.order_async["deals"]`; `id` and `profit` are
the keys `check_win` reads. -/
structure Deal where
  id : Option Nat
  profit : Option ℚ
  deriving DecidableEq

/-- `PocketOption.get_async_order` (`stable_api.py` 64-68): returns the head
deal iff its `"id"` equals the queried order id.  The outer `none` models the
exception paths (`order_async` still `None`, or an empty deals list), which
the caller's bare `except` swallows; `some none` is an actual `None` return. -/
def get_async_order (orderAsync : Option (List Deal)) (buyOrderId : Nat) :
    Option (Option Deal) :=
  match orderAsync with
  | none => none
  | some [] => none
  | some (d :: _) => if d.id = some buyOrderId then some (some d) else some none

/-- The code after the poll loop breaks: report win/lose from the `profit`
key, or `(None, "unknown")` if the key is missing. -/
def checkWinResult (d : Deal) : Option ℚ × String :=
  match d.profit with
  | some pr => (some pr, if 0 < pr then "win" else "lose")
  | none => (none, "unknown")

/-- The `while True` poll of `check_win`: `env k` is `api.order_async` at the
k-th 0.1-second poll; `rem` counts polls until `time.time() - start_t >= 120`. -/
def check_win_loop (env : Nat → Option (List Deal)) (idn : Nat) :
    Nat → Nat → Option ℚ × String
  | 0, k =>
    match get_async_order (env k) idn with
    | some (some d) => checkWinResult d
    | _ => (none, "unknown")
  | rem + 1, k =>
    match get_async_order (env k) idn with
    | some (some d) => checkWinResult d
    | _ => check_win_loop env idn rem (k + 1)

/-- `PocketOption.check_win`: 1200 polls of 0.1 s cover the 120-second
deadline. -/
def check_win (env : Nat → Option (List Deal)) (idn : Nat) : Option ℚ × String :=
  check_win_loop env idn 1200 0

/-- C6.  If no deal with the queried order id ever appears in the tracked
async order state, `check_win` terminates at its 120-second deadline and
returns `(None, "unknown")`. -/
theorem check_win_unreported (env : Nat → Option (List Deal)) (idn : Nat)
    (h : ∀ k, ∀ d ∈ (env k).getD [], d.id ≠ some idn) :
    check_win env idn = (none, "unknown") := by
  have hga : ∀ k d, get_async_order (env k) idn ≠ some (some d) := by
    intro k d heq
    rcases henv : env k with _ | l
    · rw [henv] at heq; exact Option.noConfusion heq
    · rcases l with _ | ⟨d0, rest⟩
      · rw [henv] at heq; exact Option.noConfusion heq
      · rw [henv] at heq
        simp only [get_async_order] at heq
        split at heq
        · have hmem : d0 ∈ (env k).getD [] := by
            rw [henv]; exact List.mem_cons_self d0 rest
          exact h k d0 hmem (by assumption)
        · simp at heq
  suffices hs : ∀ rem k, check_win_loop env idn rem k = (none, "unknown") from hs 1200 0
  intro rem
  induction rem with
  | zero =>
    intro k
    simp only [check_win_loop]
    cases hg : get_async_order (env k) idn with
    | none => rfl
    | some o =>
      cases o with
      | none => rfl
      | some d => exact absurd hg (hga k d)
  | succ n ih =>
    intro k
    simp only [check_win_loop]
    cases hg : get_async_order (env k) idn with
    | none => exact ih (k + 1)
    | some o =>
      cases o with
      | none => exact ih (k + 1)
      | some d => exact absurd hg (hga k d)

/-- Witness for C6: the server never reports order 12345. -/
theorem check_win_unreported_witness :
    check_win (fun _ => none) 12345 = (none, "unknown") :=
  check_win_unreported _ _ (fun k d hd => by simp at hd)

/-! ### `PocketOption.check_order_closed` (`stable_api.py` lines 137-144) -/

/-- The `while ido not in global_value.order_closed` busy-wait:
`closed k` is `global_value.order_closed` at the k-th 0.1-second poll, and
the result is `true` iff the loop guard fails (the loop exits) within
`fuel + 1` checks starting at poll `k`.  The source loop has no deadline
test at all. -/
def check_order_closed_exits (closed : Nat → List Nat) (ido : Nat) :
    Nat → Nat → Bool
  | k, 0 => decide (ido ∈ closed k)
  | k, fuel + 1 =>
    if ido ∈ closed k then true else check_order_closed_exits closed ido (k + 1) fuel

/-- The busy-wait of `check_order_closed` eventually exits. -/
def CheckOrderClosedTerminates (closed : Nat → List Nat) (ido : Nat) : Prop :=
  ∃ fuel, check_order_closed_exits closed ido 0 fuel = true

theorem exits_eq_false_of_never (closed : Nat → List Nat) (ido : Nat)
    (h : ∀ k, ido ∉ closed k) :
    ∀ fuel k, check_order_closed_exits closed ido k fuel = false := by
  intro fuel
  induction fuel with
  | zero =>
    intro k
    simp [check_order_closed_exits, h k]
  | succ n ih =>
    intro k
    simp only [check_order_closed_exits, if_neg (h k)]
    exact ih (k + 1)

/-- C8 counterexample: for an order id that never appears in the closed-order
set there is NO finite deadline after which the `check_order_closed` wait
terminates — the busy-wait spins forever. -/
theorem check_order_closed_unbounded :
    ¬ CheckOrderClosedTerminates (fun _ => []) 42 := by
  rintro ⟨fuel, hf⟩
  rw [exits_eq_false_of_never (fun _ => []) 42 (fun k => List.not_mem_nil 42) fuel 0] at hf
  exact Bool.false_ne_true hf

/-- C8 amended: the buy and check-win waits are deadline-bounded, but the
`check_order_closed` busy-wait is not — whenever the order id never appears
in the closed-order set, no finite number of polls makes the wait exit. -/
theorem check_order_closed_never_exits (closed : Nat → List Nat) (ido : Nat)
    (h : ∀ k, ido ∉ closed k) (fuel k : Nat) :
    check_order_closed_exits closed ido k fuel = false :=
  exits_eq_false_of_never closed ido h fuel k

/-- Witness for C8's amended theorem: order 42 is never in the closed set. -/
theorem check_order_closed_never_exits_witness :
    check_order_closed_exits (fun _ => [7, 9]) 42 0 3 = false :=
  check_order_closed_never_exits _ 42 (fun k => by decide) 3 0

end POB
